import Mathlib

/-!
Verification of the unstable chainHead backend of this repository
(`src/subxt/src/backend/unstable/mod.rs`) and of the block event cache
(`src/subxt/src/blocks/block_types.rs`).

The Rust code is shallowly embedded: streams become finite lists of the
items they produce, `HashMap`s become association lists, the hand written
`poll_fn` loop inside `submit_transaction` becomes an explicit step
function on a configuration record, and panics become a distinct outcome
constructor.  Block hashes are a type parameter `H` with decidable
equality (instantiated with `Nat` in concrete evaluations); byte strings
are `List Nat`.
-/

namespace Subxt

/-- Decidable equality for `Except`, needed so that concrete machine
configurations can be compared by `decide`. -/
instance {ε α : Type} [DecidableEq ε] [DecidableEq α] : DecidableEq (Except ε α) := by
  intro x y
  cases x <;> cases y
  case error.error a b =>
    exact if h : a = b then .isTrue (by rw [h]) else .isFalse (by intro hc; cases hc; exact h rfl)
  case error.ok a b => exact .isFalse (by intro hc; cases hc)
  case ok.error a b => exact .isFalse (by intro hc; cases hc)
  case ok.ok a b =>
    exact if h : a = b then .isTrue (by rw [h]) else .isFalse (by intro hc; cases hc; exact h rfl)

/-- Association list lookup, modelling `HashMap::get`. -/
def assocLookup {H A : Type} [DecidableEq H] (k : H) : List (H × A) → Option A
  | [] => none
  | (k', v') :: rest => if k' = k then some v' else assocLookup k rest

/-- Association list insert/replace, modelling `HashMap::insert` (an existing
binding for the key is replaced, others are untouched). -/
def assocInsert {H A : Type} [DecidableEq H] (k : H) (v : A) : List (H × A) → List (H × A)
  | [] => [(k, v)]
  | (k', v') :: rest => if k' = k then (k, v) :: rest else (k', v') :: assocInsert k v rest

/-- A runtime announcement carried by follow events
(`rpc_methods::RuntimeEvent`): either a valid runtime spec (of which the
backend keeps `spec_version` and `transaction_version`) or an invalid one
carrying an error string. -/
inductive RuntimeEvent : Type
  | valid (spec_version transaction_version : Nat)
  | invalid (error : String)
  deriving DecidableEq

/-- The runtime version record assembled by `stream_runtime_version`. -/
structure RuntimeVersion : Type where
  spec_version : Nat
  transaction_version : Nat
  deriving DecidableEq

/-- A pinned block reference handed out by the follow stream layers
(`follow_stream_unpin::BlockRef`).  Only its hash is observable here. -/
structure PinRef (H : Type) : Type where
  hash : H
  deriving DecidableEq

/-- Follow events delivered on the shared chainHead subscription
(`rpc_methods::FollowEvent`), restricted to the payload fields the
embedded functions inspect.  Extrinsic and output bytes are `List Nat`. -/
inductive FollowEvent (H : Type) : Type
  | initialized (finalized_block_hash : PinRef H) (finalized_block_runtime : Option RuntimeEvent)
  | newBlock (block_hash parent_block_hash : PinRef H) (new_runtime : Option RuntimeEvent)
  | bestBlockChanged (best_block_hash : PinRef H)
  | finalized (finalized_block_hashes pruned_block_hashes : List (PinRef H))
  | operationBodyDone (operation_id : String) (value : List (List Nat))
  | operationCallDone (operation_id : String) (output : List Nat)
  | operationStorageItems (operation_id : String)
  | operationWaitingForContinue (operation_id : String)
  | operationStorageDone (operation_id : String)
  | operationInaccessible (operation_id : String)
  | operationError (operation_id : String) (error : String)
  | stop
  deriving DecidableEq

/-- RPC level errors used by the backend (`crate::error::RpcError`). -/
inductive RpcError : Type
  | subscriptionDropped
  | requestRejected (message : String)
  deriving DecidableEq

/-- Backend errors (`crate::error::Error`), restricted to the variants the
embedded functions construct. -/
inductive Error : Type
  | rpc (e : RpcError)
  | other (message : String)
  deriving DecidableEq

/-- The server response to a start-operation call
(`rpc_methods::MethodResponse`). -/
inductive MethodResponse : Type
  | limitReached
  | started (operation_id : String)
  deriving DecidableEq

/-- The filter closure of `block_body` (mod.rs lines 306-315): keep only an
`OperationBodyDone` whose operation id matches, and extract its extrinsic
byte lists. -/
def bodyDoneFilter {H : Type} (operation_id : String) :
    FollowEvent H → Option (List (List Nat))
  | .operationBodyDone id value => if id ≠ operation_id then none else some value
  | _ => none

/-- The filter closure of `call` (mod.rs lines 728-736): keep only an
`OperationCallDone` whose operation id matches, and extract its output. -/
def callDoneFilter {H : Type} (operation_id : String) :
    FollowEvent H → Option (List Nat)
  | .operationCallDone id output => if id ≠ operation_id then none else some output
  | _ => none

/-- Awaiting the body result: `exts_stream.next().await` over the filtered
follow-event stream is the head of the filtered finite event list. -/
def blockBodyAwait {H : Type} (operation_id : String) (evs : List (FollowEvent H)) :
    Option (List (List Nat)) :=
  (evs.filterMap (bodyDoneFilter operation_id)).head?

/-- Awaiting the call result, analogously. -/
def callAwait {H : Type} (operation_id : String) (evs : List (FollowEvent H)) :
    Option (List Nat) :=
  (evs.filterMap (callDoneFilter operation_id)).head?

/-- `UnstableBackend::block_body` (mod.rs lines 292-318), after the
subscription id was obtained: given the server's response to
`chainhead_unstable_body` and the follow events subsequently delivered,
`LimitReached` becomes a request-rejected error, otherwise the first
matching `OperationBodyDone` (or `none` if the stream ends first) is
returned inside `Ok`. -/
def block_body {H : Type} (status : MethodResponse) (evs : List (FollowEvent H)) :
    Except Error (Option (List (List Nat))) :=
  match status with
  | .limitReached => .error (.rpc (.requestRejected "limit reached"))
  | .started operation_id => .ok (blockBodyAwait operation_id evs)

/-- `UnstableBackend::call` (mod.rs lines 705-742), after the subscription
id was obtained: `LimitReached` becomes a request-rejected error; otherwise
the output of the first matching `OperationCallDone` is returned, and if
the event stream ends without one, a `SubscriptionDropped` error. -/
def call {H : Type} (status : MethodResponse) (evs : List (FollowEvent H)) :
    Except Error (List Nat) :=
  match status with
  | .limitReached => .error (.rpc (.requestRejected "limit reached"))
  | .started operation_id =>
    match callAwait operation_id evs with
    | some output => .ok output
    | none => .error (.rpc .subscriptionDropped)

/-- One step of the stateful closure inside `stream_runtime_version`
(mod.rs lines 360-413).  The state is the `runtimes` map from block hash to
runtime announcement; the result is the updated map together with the
optional `RuntimeEvent` output selected for this follow event
(`Initialized` clears the map and outputs `finalized_block_runtime`;
`NewBlock` records `new_runtime` under the block hash; `Finalized` outputs
the announcement of the last finalized hash that has one via
`iter().rev().filter_map(get).next()` and then clears the map; every other
event leaves the map alone and outputs nothing). -/
def streamRuntimeVersionStep {H : Type} [DecidableEq H]
    (runtimes : List (H × RuntimeEvent)) :
    FollowEvent H → List (H × RuntimeEvent) × Option RuntimeEvent
  | .initialized _ finalized_block_runtime => ([], finalized_block_runtime)
  | .newBlock block_hash _ new_runtime =>
    (match new_runtime with
     | some runtime => assocInsert block_hash.hash runtime runtimes
     | none => runtimes, none)
  | .finalized finalized_block_hashes _ =>
    ([], (finalized_block_hashes.reverse.filterMap
            (fun h => assocLookup h.hash runtimes)).head?)
  | _ => (runtimes, none)

/-- Conversion of a selected `RuntimeEvent` output into the stream item of
`stream_runtime_version`: an invalid runtime becomes an error item, a valid
one becomes a `RuntimeVersion`. -/
def runtimeEventToItem : RuntimeEvent → Except Error RuntimeVersion
  | .invalid err => .error (.other err)
  | .valid sv tv => .ok { spec_version := sv, transaction_version := tv }

/-- The value of `usize::MAX` on a 64-bit target. -/
def USIZE_MAX : Nat := 2 ^ 64 - 1

/-- `UnstableBackendBuilder` (mod.rs lines 46-49): the only configuration it
carries is `max_block_life`. -/
structure UnstableBackendBuilder : Type where
  max_block_life : Nat
  deriving DecidableEq

/-- `UnstableBackendBuilder::new` (mod.rs lines 59-64): `max_block_life`
starts at `usize::MAX`. -/
def UnstableBackendBuilder.new : UnstableBackendBuilder :=
  { max_block_life := USIZE_MAX }

/-- `Default for UnstableBackendBuilder` (mod.rs lines 51-55) delegates to
`new`. -/
def UnstableBackendBuilder.defaultBuilder : UnstableBackendBuilder :=
  UnstableBackendBuilder.new

/-- `UnstableBackendBuilder::max_block_life` (mod.rs lines 73-76), the
setter (named apart from the field, which Lean reserves for the
projection). -/
def UnstableBackendBuilder.withMaxBlockLife
    (b : UnstableBackendBuilder) (max_block_life : Nat) : UnstableBackendBuilder :=
  { b with max_block_life := max_block_life }

/-- Modelled from the spec: the age-based eviction condition of the
unpinning follow stream (`follow_stream_unpin`, which is not under `src/`).
Spec section 4.2: a block is unpinned when its age (current finalized
number minus the block's own number) is greater than or equal to
`max_block_life`; the builder's doc comment in mod.rs lines 66-68 states
the same condition ("Once the difference equals or exceeds the number
given here, the block is unpinned"). -/
def ageEvictionCondition (age max_block_life : Nat) : Bool :=
  decide (age ≥ max_block_life)

/-- Outcome of one `get_events` call (block_types.rs lines 447-471): the
returned result, the cache contents after the call, and whether a fetch
from the node was performed. -/
structure GetEventsOutcome (E : Type) : Type where
  result : Except Error E
  cacheAfter : Option E
  fetched : Bool

/-- `get_events` (block_types.rs lines 447-471): under the cache lock, a
populated cache is returned as-is; an empty cache triggers a fetch
(`EventsClient::new(..).at(..)`, whose outcome is the `fetch` argument) and
the fetched value is returned — in both branches the cache cell itself is
left unchanged (the code never assigns through the lock). -/
def get_events {E : Type} (fetch : Except Error E) (cache : Option E) :
    GetEventsOutcome E :=
  match cache with
  | some events => { result := .ok events, cacheAfter := some events, fetched := false }
  | none => { result := fetch, cacheAfter := none, fetched := true }

/-- A sequence of `get_events` calls against one shared cache cell, as made
by `Block::events` (block_types.rs lines 256-258) and `Extrinsic::events`
(lines 352-357): each call is given the fetch outcome the node would
return, and threads the cache. Returns the per-call outcomes and the final
cache. -/
def getEventsCalls {E : Type} (fetches : List (Except Error E)) (cache : Option E) :
    List (GetEventsOutcome E) × Option E :=
  match fetches with
  | [] => ([], cache)
  | f :: rest =>
    let o := get_events f cache
    let (os, final) := getEventsCalls rest o.cacheAfter
    (o :: os, final)

/-- The marker kept per seen block (`SeenBlockMarker`, mod.rs lines
462-465). -/
inductive SeenBlockMarker : Type
  | new
  | finalized
  deriving DecidableEq

/-- The discriminant recorded for follow events that are neither `NewBlock`
nor `Finalized` (`OtherEvent`, mod.rs lines 467-478, kept for the
diagnostic `seen_other` log). -/
inductive OtherEvent : Type
  | bestBlockChanged
  | operationBodyDone
  | operationCallDone
  | operationStorageItems
  | operationWaitingForContinue
  | operationStorageDone
  | operationInaccessible
  | operationError
  | stop
  deriving DecidableEq

/-- An item of the `seen_blocks_sub` stream (`SeenBlock`, mod.rs lines
455-460): new block with its parent, a batch of finalized block refs, or
one of the other event kinds. -/
inductive SeenBlock (H : Type) : Type
  | new (block_hash parent_block_hash : PinRef H)
  | finalized (refs : List (PinRef H))
  | other (o : OtherEvent)
  deriving DecidableEq

/-- The filter_map closure building `seen_blocks_sub` from the follow
events (mod.rs lines 492-535).  `Initialized` yields nothing (the source
additionally records its hash into a process-wide diagnostic static, which
never feeds back into control flow and is not modelled); `Finalized`
likewise updates a diagnostic static before being passed on. -/
def seenBlocksFilter {H : Type} : FollowEvent H → Option (SeenBlock H)
  | .initialized _ _ => none
  | .newBlock block_hash parent_block_hash _ => some (.new block_hash parent_block_hash)
  | .finalized finalized_block_hashes _ => some (.finalized finalized_block_hashes)
  | .bestBlockChanged _ => some (.other .bestBlockChanged)
  | .operationBodyDone _ _ => some (.other .operationBodyDone)
  | .operationCallDone _ _ => some (.other .operationCallDone)
  | .operationStorageItems _ => some (.other .operationStorageItems)
  | .operationWaitingForContinue _ => some (.other .operationWaitingForContinue)
  | .operationStorageDone _ => some (.other .operationStorageDone)
  | .operationInaccessible _ => some (.other .operationInaccessible)
  | .operationError _ _ => some (.other .operationError)
  | .stop => some (.other .stop)

/-- The block details carried by raw transaction status events
(`rpc_methods::TransactionBlockDetails`): the backend reads only the
hash. -/
structure TxBlockDetails (H : Type) : Type where
  hash : H
  deriving DecidableEq

/-- Raw transaction status events from the server
(`rpc_methods::TransactionStatus`), as consumed by `submit_transaction`
(mod.rs lines 660-697). -/
inductive RawTransactionStatus (H : Type) : Type
  | validated
  | broadcasted (num_peers : Nat)
  | bestChainBlockIncluded (block : Option (TxBlockDetails H))
  | finalized (block : TxBlockDetails H)
  | dropped (error : String)
  | error (error : String)
  | invalid (error : String)
  deriving DecidableEq

/-- A backend `BlockRef` as emitted in client-facing transaction status
events: either built from a pinned follow-stream reference
(`block_ref.clone().into()`) or synthesized from a bare hash
(`BlockRef::from_hash`). -/
inductive BlockRefOut (H : Type) : Type
  | pinned (r : PinRef H)
  | fromHash (h : H)
  deriving DecidableEq

/-- Client-facing transaction status (`backend::TransactionStatus`),
restricted to the variants `submit_transaction` emits. -/
inductive TransactionStatus (H : Type) : Type
  | validated
  | broadcasted (num_peers : Nat)
  | noLongerInBestBlock
  | inBestBlock (hash : BlockRefOut H)
  | inFinalizedBlock (hash : BlockRefOut H)
  | dropped (message : String)
  | invalid (message : String)
  deriving DecidableEq

/-- An entry of the `seen_blocks` map (mod.rs lines 580-606): the marker,
the pinned block ref, the parent ref, and the two diagnostic elapsed-time
stamps (first seen as new / as finalized). -/
structure SeenEntry (H : Type) : Type where
  marker : SeenBlockMarker
  blockRef : PinRef H
  parent : PinRef H
  newAt : Option Nat
  finAt : Option Nat
  deriving DecidableEq

/-- The mutable state captured by the `poll_fn` closure of
`submit_transaction` (mod.rs lines 543-553): the `seen_blocks` map, the
diagnostic `seen_other` and `mem_log` logs, the `done` flag and the pending
`finalized_hash` target. -/
structure TxMachine (H : Type) : Type where
  seenBlocks : List (H × SeenEntry H)
  seenOther : List (Nat × OtherEvent)
  done : Bool
  finalizedHash : Option H
  memLog : List (Nat × RawTransactionStatus H)
  deriving DecidableEq

/-- The initial closure state (mod.rs lines 543-553). -/
def TxMachine.init {H : Type} : TxMachine H :=
  { seenBlocks := [], seenOther := [], done := false,
    finalizedHash := none, memLog := [] }

/-- A configuration of the polling loop: the elapsed time in milliseconds
since `now = Instant::now()` (mod.rs line 552), the items currently
deliverable by `seen_blocks_sub` (polling it with this list empty behaves
the same whether the underlying stream is pending or has ended, since the
loop only tests for `Poll::Ready(Some(..))`), the items deliverable by
`tx_progress` with a flag telling whether that stream has ended, and the
closure state. -/
structure LoopConfig (H : Type) : Type where
  elapsedMs : Nat
  blockEvs : List (SeenBlock H)
  txEvs : List (Except Error (RawTransactionStatus H))
  txEnded : Bool
  st : TxMachine H
  deriving DecidableEq

/-- `Duration::as_secs` of an elapsed time in milliseconds (whole seconds,
truncating). -/
def asSecs (ms : Nat) : Nat := ms / 1000

/-- Updating `seen_blocks` for one batch entry of a `Finalized` event
(mod.rs lines 598-606): `entry(hash).or_insert((Finalized, ref, ref, None,
Some(elapsed)))`, then the marker is set to `Finalized` and the
finalized-at stamp refreshed. -/
def upsertFinalized {H : Type} [DecidableEq H] (t : Nat) (ref : PinRef H)
    (sb : List (H × SeenEntry H)) : List (H × SeenEntry H) :=
  let e := (assocLookup ref.hash sb).getD
    { marker := .finalized, blockRef := ref, parent := ref, newAt := none, finAt := some t }
  assocInsert ref.hash { e with marker := .finalized, finAt := some t } sb

/-- Recording one `seen_blocks_sub` item into the closure state (mod.rs
lines 574-616): a new block is inserted (replacing any previous entry) with
marker `New`; a finalized batch upserts each of its refs; any other event
is appended to the diagnostic `seen_other` log. -/
def recordSeenBlock {H : Type} [DecidableEq H] (t : Nat) (st : TxMachine H) :
    SeenBlock H → TxMachine H
  | .new block_ref parent =>
    let entry : SeenEntry H :=
      { marker := .new, blockRef := block_ref, parent := parent,
        newAt := some t, finAt := none }
    { st with seenBlocks := assocInsert block_ref.hash entry st.seenBlocks }
  | .finalized refs =>
    { st with seenBlocks := refs.foldl (fun sb ref => upsertFinalized t ref sb) st.seenBlocks }
  | .other o =>
    { st with seenOther := st.seenOther ++ [(t, o)] }

/-- The outcome of one iteration of the `loop` body inside the `poll_fn`
closure (mod.rs lines 557-699): `cont` is an executed `continue` with the
updated configuration, `ready` is `return Poll::Ready(item)` (with `none`
for stream end), `pending` is `return Poll::Pending`, and `panicked`
covers both `panic!` sites (the 240-second diagnostic dump and the
"TERMINATE EARLY" panic). -/
inductive StepOutcome (H : Type) : Type
  | cont (c : LoopConfig H)
  | ready (item : Option (Except Error (TransactionStatus H))) (c : LoopConfig H)
  | pending (c : LoopConfig H)
  | panicked
  deriving DecidableEq

/-- One iteration of the polling loop of `submit_transaction` (mod.rs lines
557-699), in source order: (1) if more than 240 whole seconds have
elapsed, print the diagnostic state and panic; (2) if `done`, end the
stream; (3) if `seen_blocks_sub` has an item ready, record it and
continue; (4) if a finalized target hash is pending, emit
`InFinalizedBlock` with the pinned ref and set `done` when the map holds
the target with marker `Finalized`, else continue (a busy spin, since
nothing else in this phase returns); (5) otherwise poll `tx_progress`:
`Pending`/end/`Err` map through, and an `Ok` status is logged to `mem_log`
and translated (a raw `Finalized` only records the target hash and
continues). -/
def loopStep {H : Type} [DecidableEq H] (c : LoopConfig H) : StepOutcome H :=
  if asSecs c.elapsedMs > 240 then .panicked
  else if c.st.done then .ready none c
  else match c.blockEvs with
  | sb :: rest =>
    .cont { c with blockEvs := rest, st := recordSeenBlock c.elapsedMs c.st sb }
  | [] =>
    match c.st.finalizedHash with
    | some hash =>
      match assocLookup hash c.st.seenBlocks with
      | some e =>
        match e.marker with
        | .finalized =>
          .ready (some (.ok (.inFinalizedBlock (.pinned e.blockRef))))
            { c with st := { c.st with done := true } }
        | .new => .cont c
      | none => .cont c
    | none =>
      match c.txEvs with
      | [] =>
        if c.txEnded then
          if c.st.finalizedHash.isSome then .panicked
          else .ready none { c with st := { c.st with done := true } }
        else .pending c
      | .error e :: rest => .ready (some (.error e)) { c with txEvs := rest }
      | .ok ev :: rest =>
        let st1 : TxMachine H := { c.st with memLog := c.st.memLog ++ [(c.elapsedMs, ev)] }
        let c1 : LoopConfig H := { c with txEvs := rest, st := st1 }
        match ev with
        | .finalized block =>
          .cont { c1 with st := { st1 with finalizedHash := some block.hash } }
        | .bestChainBlockIncluded (some block) =>
          let block_ref : BlockRefOut H :=
            match assocLookup block.hash st1.seenBlocks with
            | some e => .pinned e.blockRef
            | none => .fromHash block.hash
          .ready (some (.ok (.inBestBlock block_ref))) c1
        | .bestChainBlockIncluded none =>
          .ready (some (.ok .noLongerInBestBlock)) c1
        | .broadcasted num_peers =>
          .ready (some (.ok (.broadcasted num_peers))) c1
        | .dropped err => .ready (some (.ok (.dropped err))) c1
        | .error err => .ready (some (.ok (.dropped err))) c1
        | .invalid err => .ready (some (.ok (.invalid err))) c1
        | .validated => .ready (some (.ok .validated)) c1

/-- The result of driving one invocation of the `poll_fn` closure to its
return (or to its panic). -/
inductive PollResult (H : Type) : Type
  | ready (item : Option (Except Error (TransactionStatus H))) (c : LoopConfig H)
  | pending (c : LoopConfig H)
  | panicked
  | fuelOut
  deriving DecidableEq

/-- Driving the loop: iterate `loopStep` until it returns or panics.
`tick` is the real time (in milliseconds) that elapses during one loop
iteration — the source re-reads `now.elapsed()` at the top of every
iteration, so during a busy spin the observed elapsed time keeps growing.
`fuel` bounds the iterations so the definition is total; `fuelOut` marks
exhaustion. -/
def runPoll {H : Type} [DecidableEq H] : Nat → Nat → LoopConfig H → PollResult H
  | 0, _, _ => .fuelOut
  | fuel + 1, tick, c =>
    match loopStep c with
    | .cont c' => runPoll fuel tick { c' with elapsedMs := c'.elapsedMs + tick }
    | .ready item c' => .ready item c'
    | .pending c' => .pending c'
    | .panicked => .panicked

/-- A concrete `seen_blocks` entry for block hash `5`, already marked
finalized by the block stream. -/
def exampleEntry : SeenEntry Nat :=
  { marker := .finalized, blockRef := ⟨5⟩, parent := ⟨5⟩, newAt := none, finAt := some 0 }

/-- A concrete configuration in which the transaction's finalized target
`5` has already been observed as finalized in the seen-blocks map. -/
def exampleFinCfg : LoopConfig Nat :=
  { elapsedMs := 0, blockEvs := [], txEvs := [], txEnded := true,
    st := { seenBlocks := [(5, exampleEntry)], seenOther := [], done := false,
            finalizedHash := some 5, memLog := [] } }

/-- `exampleFinCfg` after the `InFinalizedBlock` emission set `done`. -/
def exampleFinCfgDone : LoopConfig Nat :=
  { exampleFinCfg with st := { exampleFinCfg.st with done := true } }

/-- A concrete configuration whose stream is already done. -/
def exampleDoneCfg : LoopConfig Nat :=
  { elapsedMs := 0, blockEvs := [], txEvs := [], txEnded := false,
    st := { TxMachine.init with done := true } }

/-- `exampleFinCfg` polled 240.5 seconds after stream creation: more than
240 seconds have elapsed but `elapsed().as_secs()` is still 240. -/
def exampleLateCfg : LoopConfig Nat :=
  { exampleFinCfg with elapsedMs := 240500 }

/-- `exampleLateCfg` after its `InFinalizedBlock` emission. -/
def exampleLateCfgDone : LoopConfig Nat :=
  { exampleLateCfg with st := { exampleLateCfg.st with done := true } }

/-- The protocol-violation scenario of the spec: the transaction status
stream reports `Finalized{B2}` (hash 2) and then ends, while the block
stream never delivers anything (in particular never pins hash 2). -/
def protocolViolationCfg : LoopConfig Nat :=
  { elapsedMs := 0, blockEvs := [], txEvs := [.ok (.finalized ⟨2⟩)], txEnded := true,
    st := TxMachine.init }

/-- `protocolViolationCfg` after the raw `Finalized{2}` event was consumed:
the finalized target is recorded and the machine starts waiting. -/
def protocolViolationCfgNext : LoopConfig Nat :=
  { elapsedMs := 0, blockEvs := [], txEvs := [], txEnded := true,
    st := { seenBlocks := [], seenOther := [], done := false,
            finalizedHash := some 2, memLog := [(0, .finalized ⟨2⟩)] } }

theorem assocLookup_insert_self {H A : Type} [DecidableEq H] (k : H) (v : A)
    (l : List (H × A)) : assocLookup k (assocInsert k v l) = some v := by
  induction l with
  | nil => simp [assocInsert, assocLookup]
  | cons hd tl ih =>
    obtain ⟨k', v'⟩ := hd
    by_cases h : k' = k
    · simp [assocInsert, assocLookup, h]
    · simp [assocInsert, assocLookup, h, ih]

theorem assocLookup_insert_ne {H A : Type} [DecidableEq H] {k k' : H} (v : A)
    (l : List (H × A)) (h : k' ≠ k) :
    assocLookup k (assocInsert k' v l) = assocLookup k l := by
  induction l with
  | nil => simp [assocInsert, assocLookup, h]
  | cons hd tl ih =>
    obtain ⟨k'', v''⟩ := hd
    by_cases h2 : k'' = k'
    · subst h2
      simp [assocInsert, assocLookup, h]
    · by_cases h3 : k'' = k
      · simp [assocInsert, assocLookup, h2, h3, Ne.symm h]
      · simp [assocInsert, assocLookup, h2, h3, ih]

theorem recordSeenBlock_finalizedHash {H : Type} [DecidableEq H]
    (t : Nat) (st : TxMachine H) (sb : SeenBlock H) :
    (recordSeenBlock t st sb).finalizedHash = st.finalizedHash := by
  cases sb <;> rfl

theorem lookup_foldl_upsert {H : Type} [DecidableEq H] (t : Nat) :
    ∀ (refs : List (PinRef H)) (sb : List (H × SeenEntry H)) (h : H) (e' : SeenEntry H),
      assocLookup h (refs.foldl (fun sb ref => upsertFinalized t ref sb) sb) = some e' →
      h ∈ refs.map PinRef.hash ∨ assocLookup h sb = some e' := by
  intro refs
  induction refs with
  | nil => intro sb h e' hl; exact Or.inr hl
  | cons ref rest ih =>
    intro sb h e' hl
    simp only [List.foldl_cons] at hl
    rcases ih _ _ _ hl with hmem | hbase
    · exact Or.inl (by simp [hmem])
    · by_cases hh : h = ref.hash
      · exact Or.inl (by simp [hh])
      · rw [upsertFinalized, assocLookup_insert_ne _ _ (fun hc => hh hc.symm)] at hbase
        exact Or.inr hbase

theorem upsert_keycons {H : Type} [DecidableEq H] (t : Nat) (ref : PinRef H)
    (sb : List (H × SeenEntry H))
    (hinv : ∀ h e, assocLookup h sb = some e → e.blockRef.hash = h) :
    ∀ h e', assocLookup h (upsertFinalized t ref sb) = some e' → e'.blockRef.hash = h := by
  intro h e' hl
  by_cases hh : ref.hash = h
  · subst hh
    rw [upsertFinalized, assocLookup_insert_self] at hl
    cases hl
    cases hb : assocLookup ref.hash sb with
    | none => simp [hb]
    | some e0 => simpa [hb] using hinv _ _ hb
  · rw [upsertFinalized, assocLookup_insert_ne _ _ hh] at hl
    exact hinv _ _ hl

theorem foldl_upsert_keycons {H : Type} [DecidableEq H] (t : Nat) :
    ∀ (refs : List (PinRef H)) (sb : List (H × SeenEntry H)),
      (∀ h e, assocLookup h sb = some e → e.blockRef.hash = h) →
      ∀ h e', assocLookup h (refs.foldl (fun sb ref => upsertFinalized t ref sb) sb) = some e' →
        e'.blockRef.hash = h := by
  intro refs
  induction refs with
  | nil => intro sb hinv h e' hl; exact hinv _ _ hl
  | cons ref rest ih =>
    intro sb hinv h e' hl
    simp only [List.foldl_cons] at hl
    exact ih _ (upsert_keycons t ref sb hinv) h e' hl

/-- Claim C1: for every transaction submitted via `submit_transaction`,
the combined status stream emits `InFinalizedBlock` only when the
finalized target hash (which only a raw `Finalized` transaction status
event can set) is found in the seen-blocks mapping with marker
`Finalized` (a marker that only arises from a `Finalized` event of the
block-pinning stream mentioning that hash); the emitted reference is the
pinned block ref stored in that mapping entry (which, whenever the map is
key-consistent, is a reference to the target hash itself); and the stream
is done afterwards, yielding no further items on any later poll. -/
theorem claim_C1_inFinalizedBlock_only_after_pinned_finalized {H : Type} [DecidableEq H] :
    (∀ (c c' : LoopConfig H) (r : BlockRefOut H),
       loopStep c = .ready (some (.ok (.inFinalizedBlock r))) c' →
       ∃ h e, c.st.finalizedHash = some h ∧ assocLookup h c.st.seenBlocks = some e ∧
         e.marker = .finalized ∧ r = .pinned e.blockRef ∧ c'.st.done = true) ∧
    (∀ c : LoopConfig H, c.st.done = true →
       loopStep c = .ready none c ∨ loopStep c = .panicked) ∧
    (∀ (t : Nat) (st : TxMachine H) (sb : SeenBlock H) (h : H) (e' : SeenEntry H),
       assocLookup h (recordSeenBlock t st sb).seenBlocks = some e' →
       e'.marker = .finalized →
       (∃ e, assocLookup h st.seenBlocks = some e ∧ e.marker = .finalized) ∨
       (∃ refs, sb = .finalized refs ∧ h ∈ refs.map PinRef.hash)) ∧
    (∀ (c c' : LoopConfig H), loopStep c = .cont c' →
       c'.st.finalizedHash = c.st.finalizedHash ∨
       (∃ b rest, c.txEvs = .ok (.finalized b) :: rest ∧ c'.st.finalizedHash = some b.hash)) ∧
    (∀ (t : Nat) (st : TxMachine H) (sb : SeenBlock H),
       (∀ h e, assocLookup h st.seenBlocks = some e → e.blockRef.hash = h) →
       ∀ h e', assocLookup h (recordSeenBlock t st sb).seenBlocks = some e' →
         e'.blockRef.hash = h) := by
  refine ⟨?_, ?_, ?_, ?_, ?_⟩
  · intro c c' r hstep
    obtain ⟨ms, bevs, tevs, tend, ⟨sbm, so, dn, fh, ml⟩⟩ := c
    by_cases hT : asSecs ms > 240
    · simp [loopStep, hT] at hstep
    · cases dn with
      | true => simp [loopStep, hT] at hstep
      | false =>
        cases bevs with
        | cons sb rest => simp [loopStep, hT] at hstep
        | nil =>
          cases fh with
          | some h =>
            cases hl : assocLookup h sbm with
            | none => simp [loopStep, hT, hl] at hstep
            | some e =>
              cases hm : e.marker with
              | new => simp [loopStep, hT, hl, hm] at hstep
              | finalized =>
                simp [loopStep, hT, hl, hm] at hstep
                obtain ⟨h1, h2⟩ := hstep
                exact ⟨h, e, rfl, hl, hm, h1.symm, by rw [← h2]⟩
          | none =>
            cases tevs with
            | nil =>
              cases tend with
              | true => simp [loopStep, hT] at hstep
              | false => simp [loopStep, hT] at hstep
            | cons tev rest =>
              cases tev with
              | error e => simp [loopStep, hT] at hstep
              | ok ev =>
                cases ev with
                | validated => simp [loopStep, hT] at hstep
                | broadcasted n => simp [loopStep, hT] at hstep
                | bestChainBlockIncluded blk =>
                  cases blk <;> simp [loopStep, hT] at hstep
                | finalized blk => simp [loopStep, hT] at hstep
                | dropped err => simp [loopStep, hT] at hstep
                | error err => simp [loopStep, hT] at hstep
                | invalid err => simp [loopStep, hT] at hstep
  · intro c hdone
    by_cases hT : asSecs c.elapsedMs > 240
    · exact Or.inr (by simp [loopStep, hT])
    · exact Or.inl (by simp [loopStep, hT, hdone])
  · intro t st sb h e' hl hm
    cases sb with
    | new block_ref parent =>
      simp only [recordSeenBlock] at hl
      by_cases hh : block_ref.hash = h
      · subst hh
        rw [assocLookup_insert_self] at hl
        cases hl
        simp at hm
      · rw [assocLookup_insert_ne _ _ hh] at hl
        exact Or.inl ⟨e', hl, hm⟩
    | finalized refs =>
      simp only [recordSeenBlock] at hl
      rcases lookup_foldl_upsert t refs st.seenBlocks h e' hl with hmem | hbase
      · exact Or.inr ⟨refs, rfl, hmem⟩
      · exact Or.inl ⟨e', hbase, hm⟩
    | other o =>
      exact Or.inl ⟨e', hl, hm⟩
  · intro c c' hstep
    obtain ⟨ms, bevs, tevs, tend, ⟨sbm, so, dn, fh, ml⟩⟩ := c
    by_cases hT : asSecs ms > 240
    · simp [loopStep, hT] at hstep
    · cases dn with
      | true => simp [loopStep, hT] at hstep
      | false =>
        cases bevs with
        | cons sb rest =>
          simp [loopStep, hT] at hstep
          rw [← hstep]
          exact Or.inl (by simp [recordSeenBlock_finalizedHash])
        | nil =>
          cases fh with
          | some h =>
            cases hl : assocLookup h sbm with
            | none =>
              simp [loopStep, hT, hl] at hstep
              rw [← hstep]
              exact Or.inl rfl
            | some e =>
              cases hm : e.marker with
              | new =>
                simp [loopStep, hT, hl, hm] at hstep
                rw [← hstep]
                exact Or.inl rfl
              | finalized => simp [loopStep, hT, hl, hm] at hstep
          | none =>
            cases tevs with
            | nil =>
              cases tend with
              | true => simp [loopStep, hT] at hstep
              | false => simp [loopStep, hT] at hstep
            | cons tev rest =>
              cases tev with
              | error e => simp [loopStep, hT] at hstep
              | ok ev =>
                cases ev with
                | validated => simp [loopStep, hT] at hstep
                | broadcasted n => simp [loopStep, hT] at hstep
                | bestChainBlockIncluded blk =>
                  cases blk <;> simp [loopStep, hT] at hstep
                | finalized blk =>
                  simp [loopStep, hT] at hstep
                  rw [← hstep]
                  exact Or.inr ⟨blk, rest, rfl, rfl⟩
                | dropped err => simp [loopStep, hT] at hstep
                | error err => simp [loopStep, hT] at hstep
                | invalid err => simp [loopStep, hT] at hstep
  · intro t st sb hinv h e' hl
    cases sb with
    | new block_ref parent =>
      simp only [recordSeenBlock] at hl
      by_cases hh : block_ref.hash = h
      · subst hh
        rw [assocLookup_insert_self] at hl
        cases hl
        rfl
      · rw [assocLookup_insert_ne _ _ hh] at hl
        exact hinv _ _ hl
    | finalized refs =>
      simp only [recordSeenBlock] at hl
      exact foldl_upsert_keycons t refs st.seenBlocks hinv h e' hl
    | other o => exact hinv _ _ hl

/-- Concrete instantiation of claim C1: the finalized emission at
`exampleFinCfg`, the terminal behavior at `exampleDoneCfg`, finalized
marker provenance, target provenance at `protocolViolationCfg`, and key
consistency, each evaluated on explicit inputs. -/
theorem claim_C1_witness :
    (loopStep exampleFinCfg =
       .ready (some (.ok (.inFinalizedBlock (.pinned ⟨5⟩)))) exampleFinCfgDone) ∧
    (∃ h e, exampleFinCfg.st.finalizedHash = some h ∧
       assocLookup h exampleFinCfg.st.seenBlocks = some e ∧
       e.marker = .finalized ∧ (BlockRefOut.pinned (⟨5⟩ : PinRef Nat)) = .pinned e.blockRef ∧
       exampleFinCfgDone.st.done = true) ∧
    (exampleDoneCfg.st.done = true) ∧
    (loopStep exampleDoneCfg = .ready none exampleDoneCfg ∨
       loopStep exampleDoneCfg = .panicked) ∧
    (assocLookup 5 (recordSeenBlock 0 TxMachine.init (.finalized [⟨5⟩])).seenBlocks =
       some exampleEntry) ∧
    ((∃ e, assocLookup 5 (TxMachine.init (H := Nat)).seenBlocks = some e ∧
        e.marker = .finalized) ∨
     (∃ refs, (SeenBlock.finalized [⟨5⟩] : SeenBlock Nat) = .finalized refs ∧
        (5 : Nat) ∈ refs.map PinRef.hash)) ∧
    (loopStep protocolViolationCfg = .cont protocolViolationCfgNext) ∧
    (protocolViolationCfgNext.st.finalizedHash = protocolViolationCfg.st.finalizedHash ∨
     (∃ b rest, protocolViolationCfg.txEvs = .ok (.finalized b) :: rest ∧
        protocolViolationCfgNext.st.finalizedHash = some b.hash)) ∧
    (exampleEntry.blockRef.hash = 5) :=
  ⟨by decide,
   claim_C1_inFinalizedBlock_only_after_pinned_finalized.1 exampleFinCfg exampleFinCfgDone
     (.pinned ⟨5⟩) (by decide),
   by decide,
   claim_C1_inFinalizedBlock_only_after_pinned_finalized.2.1 exampleDoneCfg (by decide),
   by decide,
   claim_C1_inFinalizedBlock_only_after_pinned_finalized.2.2.1 0 TxMachine.init
     (.finalized [⟨5⟩]) 5 exampleEntry (by decide) (by decide),
   by decide,
   claim_C1_inFinalizedBlock_only_after_pinned_finalized.2.2.2.1 protocolViolationCfg
     protocolViolationCfgNext (by decide),
   claim_C1_inFinalizedBlock_only_after_pinned_finalized.2.2.2.2 0 TxMachine.init
     (.finalized [⟨5⟩]) (by intro h e hl; simp [TxMachine.init, assocLookup] at hl) 5
     exampleEntry (by decide)⟩

/-- Claim C2 (code bug evidence): at the protocol-violation input — the
transaction stream reports `Finalized{2}` and ends while the block stream
never pins hash 2 — the combined stream does not yield a
protocol-violation `Err` item: the polling loop busy-spins (each
iteration re-reads the elapsed clock) until the 240-second check fires
and the poll panics, whatever the per-iteration time granularity.  The
loop also never returns `Pending` in this phase, so no later poll can
ever observe anything either. -/
theorem claim_C2_unpinned_finalized_target_panics :
    runPoll 300 1000 protocolViolationCfg = .panicked ∧
    runPoll 10 100000 protocolViolationCfg = .panicked ∧
    loopStep protocolViolationCfgNext = .cont protocolViolationCfgNext := by
  refine ⟨by decide, by decide, by decide⟩

/-- Claim C3 (counterexample): when the shared follow-event stream ends
before a matching `OperationBodyDone` arrives, `block_body` resolves to
`Ok(None)`, not to a `SubscriptionDropped` error as the claim states. -/
theorem claim_C3_counterexample :
    block_body (.started "opA") ([] : List (FollowEvent Nat)) = .ok none ∧
    ¬ (block_body (.started "opA") ([] : List (FollowEvent Nat)) =
         .error (.rpc .subscriptionDropped)) := by
  decide

/-- Claim C3 as amended: if the stream ends before the matching terminal
event, `call` fails with `SubscriptionDropped`, but `block_body` resolves
with `Ok(None)` and produces no error at all. -/
theorem claim_C3_amended {H : Type} [DecidableEq H] :
    (∀ (operation_id : String) (evs : List (FollowEvent H)),
       callAwait operation_id evs = none →
       call (.started operation_id) evs = .error (.rpc .subscriptionDropped)) ∧
    (∀ (operation_id : String) (evs : List (FollowEvent H)),
       blockBodyAwait operation_id evs = none →
       block_body (.started operation_id) evs = .ok none) := by
  constructor
  · intro operation_id evs hnone
    simp [call, hnone]
  · intro operation_id evs hnone
    simp [block_body, hnone]

/-- Concrete instantiation of the amended claim C3 on the empty (already
ended) event stream. -/
theorem claim_C3_witness :
    (callAwait "opB" ([] : List (FollowEvent Nat)) = none ∧
       call (.started "opB") ([] : List (FollowEvent Nat)) =
         .error (.rpc .subscriptionDropped)) ∧
    (blockBodyAwait "opB" ([] : List (FollowEvent Nat)) = none ∧
       block_body (.started "opB") ([] : List (FollowEvent Nat)) = .ok none) :=
  ⟨⟨by decide, claim_C3_amended.1 "opB" [] (by decide)⟩,
   ⟨by decide, claim_C3_amended.2 "opB" [] (by decide)⟩⟩

/-- Claim C4 (counterexample): a poll of the combined stream occurring
240.5 seconds after creation — more than 240 seconds — does not panic:
it returns a `Poll::Ready` result carrying a further status value,
because the panic guard uses `elapsed().as_secs() > 240` and `as_secs`
truncates to whole seconds. -/
theorem claim_C4_counterexample :
    240 * 1000 < exampleLateCfg.elapsedMs ∧
    loopStep exampleLateCfg =
      .ready (some (.ok (.inFinalizedBlock (.pinned ⟨5⟩)))) exampleLateCfgDone := by
  refine ⟨by decide, by decide⟩

/-- Claim C4 as amended: every poll made once `elapsed().as_secs() > 240`
— that is, at least 241 whole seconds after stream creation — panics
(after the diagnostic dump) regardless of the machine state, so no
caller polling from then on ever receives a further status or error
value. -/
theorem claim_C4_amended {H : Type} [DecidableEq H] :
    ∀ c : LoopConfig H, 240 < asSecs c.elapsedMs → loopStep c = .panicked := by
  intro c hT
  simp [loopStep, hT]

/-- Concrete instantiation of the amended claim C4 at 241 seconds. -/
theorem claim_C4_witness :
    240 < asSecs 241000 ∧
    loopStep { exampleFinCfg with elapsedMs := 241000 } = .panicked :=
  ⟨by decide, claim_C4_amended { exampleFinCfg with elapsedMs := 241000 } (by decide)⟩

/-- Claim C5: while awaiting a body or call operation, every follow event
that is not the terminal event kind with the awaited operation id is
skipped — prepending it leaves the awaited result unchanged — and the
first event with the matching id and terminal kind determines the result
of `block_body` respectively `call`. -/
theorem claim_C5_operation_correlation {H : Type} [DecidableEq H] :
    (∀ (operation_id : String) (ev : FollowEvent H) (evs : List (FollowEvent H)),
       (∀ v, ev ≠ .operationBodyDone operation_id v) →
       blockBodyAwait operation_id (ev :: evs) = blockBodyAwait operation_id evs) ∧
    (∀ (operation_id : String) (v : List (List Nat)) (evs : List (FollowEvent H)),
       blockBodyAwait operation_id (.operationBodyDone operation_id v :: evs) = some v ∧
       block_body (.started operation_id) (.operationBodyDone operation_id v :: evs) =
         .ok (some v)) ∧
    (∀ (operation_id : String) (ev : FollowEvent H) (evs : List (FollowEvent H)),
       (∀ out, ev ≠ .operationCallDone operation_id out) →
       callAwait operation_id (ev :: evs) = callAwait operation_id evs) ∧
    (∀ (operation_id : String) (out : List Nat) (evs : List (FollowEvent H)),
       callAwait operation_id (.operationCallDone operation_id out :: evs) = some out ∧
       call (.started operation_id) (.operationCallDone operation_id out :: evs) = .ok out) := by
  refine ⟨?_, ?_, ?_, ?_⟩
  · intro operation_id ev evs hne
    have hf : bodyDoneFilter (H := H) operation_id ev = none := by
      cases ev with
      | operationBodyDone id v =>
        by_cases hid : id = operation_id
        · subst hid
          exact absurd rfl (hne v)
        · simp [bodyDoneFilter, hid]
      | _ => rfl
    simp [blockBodyAwait, List.filterMap_cons, hf]
  · intro operation_id v evs
    constructor
    · simp [blockBodyAwait, List.filterMap_cons, bodyDoneFilter]
    · simp [block_body, blockBodyAwait, List.filterMap_cons, bodyDoneFilter]
  · intro operation_id ev evs hne
    have hf : callDoneFilter (H := H) operation_id ev = none := by
      cases ev with
      | operationCallDone id out =>
        by_cases hid : id = operation_id
        · subst hid
          exact absurd rfl (hne out)
        · simp [callDoneFilter, hid]
      | _ => rfl
    simp [callAwait, List.filterMap_cons, hf]
  · intro operation_id out evs
    constructor
    · simp [callAwait, List.filterMap_cons, callDoneFilter]
    · simp [call, callAwait, List.filterMap_cons, callDoneFilter]

/-- Concrete instantiation of claim C5: a call-done for a different
operation id and a storage event are skipped by the body await, and the
first matching terminal events determine the results. -/
theorem claim_C5_witness :
    ((∀ v, (FollowEvent.operationCallDone "opX" [7] : FollowEvent Nat) ≠
        .operationBodyDone "opY" v) ∧
     blockBodyAwait "opY" ([FollowEvent.operationCallDone "opX" [7]] : List (FollowEvent Nat)) =
       blockBodyAwait "opY" ([] : List (FollowEvent Nat))) ∧
    (blockBodyAwait "opY"
        ([FollowEvent.operationBodyDone "opY" [[1], [2]] , FollowEvent.stop] :
          List (FollowEvent Nat)) = some [[1], [2]] ∧
     block_body (.started "opY")
        ([FollowEvent.operationBodyDone "opY" [[1], [2]] , FollowEvent.stop] :
          List (FollowEvent Nat)) =
       .ok (some [[1], [2]])) ∧
    ((∀ out, (FollowEvent.operationBodyDone "opY" [] : FollowEvent Nat) ≠
        .operationCallDone "opY" out) ∧
     callAwait "opY" ([FollowEvent.operationBodyDone "opY" []] : List (FollowEvent Nat)) =
       callAwait "opY" ([] : List (FollowEvent Nat))) ∧
    (callAwait "opY" ([FollowEvent.operationCallDone "opY" [9]] : List (FollowEvent Nat)) =
       some [9] ∧
     call (.started "opY") ([FollowEvent.operationCallDone "opY" [9]] : List (FollowEvent Nat)) =
       .ok [9]) :=
  ⟨⟨(fun v hv => by cases hv),
    claim_C5_operation_correlation.1 "opY" (.operationCallDone "opX" [7]) []
      (fun v hv => by cases hv)⟩,
   claim_C5_operation_correlation.2.1 "opY" [[1], [2]] [FollowEvent.stop],
   ⟨(fun out hout => by cases hout),
    claim_C5_operation_correlation.2.2.1 "opY" (.operationBodyDone "opY" []) []
      (fun out hout => by cases hout)⟩,
   claim_C5_operation_correlation.2.2.2 "opY" [9] []⟩

/-- Claim C6: while no finalized target is pending (and the pending block
events are drained), a raw `BestChainBlockIncluded{Some(block)}` status is
emitted as `InBestBlock` carrying the pinned reference stored for
`block.hash` in the seen-blocks map when present, and otherwise a
synthesized unpinned reference from the bare hash; a
`BestChainBlockIncluded{None}` is emitted as `NoLongerInBestBlock`. -/
theorem claim_C6_bestChainBlockIncluded_mapping {H : Type} [DecidableEq H]
    (ms : Nat) (sbm : List (H × SeenEntry H)) (so : List (Nat × OtherEvent))
    (ml : List (Nat × RawTransactionStatus H))
    (tevs : List (Except Error (RawTransactionStatus H))) (tend : Bool)
    (block : TxBlockDetails H) (hT : ¬ 240 < asSecs ms) :
    (∀ e, assocLookup block.hash sbm = some e →
       loopStep (⟨ms, [], .ok (.bestChainBlockIncluded (some block)) :: tevs, tend,
           ⟨sbm, so, false, none, ml⟩⟩ : LoopConfig H) =
         .ready (some (.ok (.inBestBlock (.pinned e.blockRef))))
           ⟨ms, [], tevs, tend, ⟨sbm, so, false, none,
             ml ++ [(ms, .bestChainBlockIncluded (some block))]⟩⟩) ∧
    (assocLookup block.hash sbm = none →
       loopStep (⟨ms, [], .ok (.bestChainBlockIncluded (some block)) :: tevs, tend,
           ⟨sbm, so, false, none, ml⟩⟩ : LoopConfig H) =
         .ready (some (.ok (.inBestBlock (.fromHash block.hash))))
           ⟨ms, [], tevs, tend, ⟨sbm, so, false, none,
             ml ++ [(ms, .bestChainBlockIncluded (some block))]⟩⟩) ∧
    (loopStep (⟨ms, [], .ok (.bestChainBlockIncluded none) :: tevs, tend,
         ⟨sbm, so, false, none, ml⟩⟩ : LoopConfig H) =
       .ready (some (.ok .noLongerInBestBlock))
         ⟨ms, [], tevs, tend, ⟨sbm, so, false, none,
           ml ++ [(ms, .bestChainBlockIncluded none)]⟩⟩) := by
  refine ⟨?_, ?_, ?_⟩
  · intro e hl
    simp [loopStep, hT, hl]
  · intro hl
    simp [loopStep, hT, hl]
  · simp [loopStep, hT]

/-- Concrete instantiation of claim C6: hash 5 is in the seen-blocks map
and is emitted pinned, hash 7 is absent and is emitted as a bare-hash
reference, and the `None` case maps to `NoLongerInBestBlock`. -/
theorem claim_C6_witness :
    (¬ 240 < asSecs 3 ∧ assocLookup (5 : Nat) [(5, exampleEntry)] = some exampleEntry ∧
     loopStep (⟨3, [], [.ok (.bestChainBlockIncluded (some ⟨5⟩))], true,
         ⟨[(5, exampleEntry)], [], false, none, []⟩⟩ : LoopConfig Nat) =
       .ready (some (.ok (.inBestBlock (.pinned exampleEntry.blockRef))))
         ⟨3, [], [], true, ⟨[(5, exampleEntry)], [], false, none,
           [(3, .bestChainBlockIncluded (some ⟨5⟩))]⟩⟩) ∧
    (assocLookup (7 : Nat) [(5, exampleEntry)] = none ∧
     loopStep (⟨3, [], [.ok (.bestChainBlockIncluded (some ⟨7⟩))], true,
         ⟨[(5, exampleEntry)], [], false, none, []⟩⟩ : LoopConfig Nat) =
       .ready (some (.ok (.inBestBlock (.fromHash 7))))
         ⟨3, [], [], true, ⟨[(5, exampleEntry)], [], false, none,
           [(3, .bestChainBlockIncluded (some ⟨7⟩))]⟩⟩) ∧
    (loopStep (⟨3, [], [.ok (.bestChainBlockIncluded none)], true,
         ⟨[(5, exampleEntry)], [], false, none, []⟩⟩ : LoopConfig Nat) =
       .ready (some (.ok .noLongerInBestBlock))
         ⟨3, [], [], true, ⟨[(5, exampleEntry)], [], false, none,
           [(3, .bestChainBlockIncluded none)]⟩⟩) :=
  ⟨⟨by decide, by decide,
    (claim_C6_bestChainBlockIncluded_mapping 3 [(5, exampleEntry)] [] [] [] true ⟨5⟩
       (by decide)).1 exampleEntry (by decide)⟩,
   ⟨by decide,
    (claim_C6_bestChainBlockIncluded_mapping 3 [(5, exampleEntry)] [] [] [] true ⟨7⟩
       (by decide)).2.1 (by decide)⟩,
   (claim_C6_bestChainBlockIncluded_mapping 3 [(5, exampleEntry)] [] [] [] true ⟨7⟩
      (by decide)).2.2⟩

/-- Claim C7: a `LimitReached` response to the start-operation call makes
`block_body` and `call` return the request-rejected error whatever the
follow events are (so no event is awaited), while a `Started` response
makes the result depend only on filtering the events for the started
operation id — in particular no request-rejected error is produced. -/
theorem claim_C7_limitReached_requestRejected {H : Type} [DecidableEq H] :
    (∀ evs : List (FollowEvent H),
       block_body .limitReached evs = .error (.rpc (.requestRejected "limit reached"))) ∧
    (∀ evs : List (FollowEvent H),
       call .limitReached evs = .error (.rpc (.requestRejected "limit reached"))) ∧
    (∀ (operation_id : String) (evs : List (FollowEvent H)),
       block_body (.started operation_id) evs = .ok (blockBodyAwait operation_id evs)) ∧
    (∀ (operation_id : String) (evs : List (FollowEvent H)),
       (∃ out, call (.started operation_id) evs = .ok out) ∨
       call (.started operation_id) evs = .error (.rpc .subscriptionDropped)) := by
  refine ⟨fun evs => rfl, fun evs => rfl, fun operation_id evs => rfl, ?_⟩
  intro operation_id evs
  cases h : callAwait operation_id evs with
  | none => exact Or.inr (by simp [call, h])
  | some out => exact Or.inl ⟨out, by simp [call, h]⟩

/-- Claim C8: the runtime-version stream clears all tracked announcements
on `Initialized` and outputs its `finalized_block_runtime`; records the
`new_runtime` of each `NewBlock` under the block hash (and nothing for a
`NewBlock` without one); and on `Finalized` outputs exactly the
announcement recorded for the last hash in `finalized_block_hashes` that
has one (nothing when none has one) and then clears all recorded
announcements. -/
theorem claim_C8_stream_runtime_version {H : Type} [DecidableEq H]
    (runtimes : List (H × RuntimeEvent)) (finRef : PinRef H)
    (finRt : Option RuntimeEvent) (bh ph : PinRef H) (rt : RuntimeEvent)
    (finHashes pruned : List (PinRef H)) :
    streamRuntimeVersionStep runtimes (.initialized finRef finRt) = ([], finRt) ∧
    streamRuntimeVersionStep runtimes (.newBlock bh ph (some rt)) =
      (assocInsert bh.hash rt runtimes, none) ∧
    streamRuntimeVersionStep runtimes (.newBlock bh ph none) = (runtimes, none) ∧
    streamRuntimeVersionStep runtimes (.finalized finHashes pruned) =
      ([], (finHashes.filterMap (fun h => assocLookup h.hash runtimes)).getLast?) := by
  refine ⟨rfl, rfl, rfl, ?_⟩
  simp only [streamRuntimeVersionStep, List.filterMap_reverse, List.head?_reverse]

/-- Claim C9: a builder from `new` (or `Default`) configures
`max_block_life` as `usize::MAX`, so for every block age below
`usize::MAX` the age-based eviction condition never holds and no block is
automatically unpinned for age. -/
theorem claim_C9_default_max_block_life :
    UnstableBackendBuilder.new.max_block_life = USIZE_MAX ∧
    UnstableBackendBuilder.defaultBuilder.max_block_life = USIZE_MAX ∧
    ∀ age : Nat, age < USIZE_MAX →
      ageEvictionCondition age UnstableBackendBuilder.new.max_block_life = false := by
  refine ⟨rfl, rfl, ?_⟩
  intro age h
  simp only [ageEvictionCondition, UnstableBackendBuilder.new, decide_eq_false_iff_not]
  omega

/-- Concrete instantiation of claim C9: a block one million finalized
blocks old is still not evicted under the default configuration. -/
theorem claim_C9_witness :
    1000000 < USIZE_MAX ∧
    ageEvictionCondition 1000000 UnstableBackendBuilder.new.max_block_life = false :=
  ⟨by norm_num [USIZE_MAX],
   claim_C9_default_max_block_life.2.2 1000000 (by norm_num [USIZE_MAX])⟩

/-- Claim C10: `get_events` never writes the shared `cached_events` cell —
the cache after a call always equals the cache before it — so a call on an
empty cache performs a fresh fetch, returns the fetch outcome, and leaves
the cache empty; consequently every call of any sequence of
`Block::events`/`Extrinsic::events` invocations starting from an empty
cache performs its own fetch and the cache ends empty. -/
theorem claim_C10_get_events_cache_never_written {E : Type} :
    (∀ (fetch : Except Error E) (cache : Option E),
       (get_events fetch cache).cacheAfter = cache) ∧
    (∀ fetch : Except Error E,
       (get_events fetch none).fetched = true ∧ (get_events fetch none).result = fetch) ∧
    (∀ fetches : List (Except Error E),
       ((getEventsCalls fetches (none : Option E)).1.all (fun o => o.fetched)) = true ∧
       (getEventsCalls fetches (none : Option E)).2 = none) := by
  refine ⟨?_, ?_, ?_⟩
  · intro fetch cache
    cases cache <;> rfl
  · intro fetch
    exact ⟨rfl, rfl⟩
  · intro fetches
    induction fetches with
    | nil => exact ⟨rfl, rfl⟩
    | cons f rest ih =>
      simpa [getEventsCalls, get_events] using ih

end Subxt
